import Mathlib

/-!
Shallow embedding of the quantms.io Feature pipeline
(src/quantmsio/core/feature.py) and proofs of the specification claims
about it.  Pandas cell values are modelled by an explicit `Cell` type
(null / numeric / string); DataFrames are modelled per claim either as
lists of typed row structures (row-wise apply-style operations) or as
association lists of named columns (column-presence-sensitive
operations).  Machine floats are modelled by exact rationals: every
comparison performed by the code is an exact order comparison.
-/

namespace QuantmsIO

/-- Value of a single pandas cell: null (None/NaN), a numeric value, or a
string.  Numeric values are modelled by exact rationals. -/
inductive Cell where
  | null : Cell
  | num (q : ℚ) : Cell
  | str (s : String) : Cell
deriving DecidableEq, Repr

/-! ### PSM extractor model (Feature.extract_psm_msg, feature.py lines 29-52)

A PSM row carries the columns read by extract_psm_msg.  The three key
columns mirror the mzTab PSM table: the file name and peptidoform are
strings, while the precursor charge is kept as a raw cell value because
the code compares it by plain tuple equality against msstats rows during
the later merge.  The probability and m/z columns are numeric in mzTab,
so they are typed as rationals. -/

structure PsmRow where
  reference_file_name : String
  peptidoform : String
  precursor_charge : Cell
  posterior_error_probability : ℚ
  calculated_mz : ℚ
  observed_mz : ℚ
  mp_accessions : String
  is_decoy : Int
  additional_scores : String
  cv_params : String
deriving DecidableEq, Repr

/-- Group key of extract_psm_msg: (reference_file_name, peptidoform,
precursor_charge), as in feature.py line 35. -/
abbrev PsmKey := String × String × Cell

def psmKeyOf (r : PsmRow) : PsmKey :=
  (r.reference_file_name, r.peptidoform, r.precursor_charge)

/-- The 7-slot value stored in map_dict for a key (feature.py lines
40-51): probability, calculated m/z, observed m/z, accessions, decoy
flag, additional scores, cv params. -/
structure PsmMsg where
  pep : ℚ
  calcMz : ℚ
  obsMz : ℚ
  acc : String
  decoy : Int
  scores : String
  cv : String
deriving DecidableEq, Repr

def psmMsgOf (r : PsmRow) : PsmMsg :=
  ⟨r.posterior_error_probability, r.calculated_mz, r.observed_mz,
   r.mp_accessions, r.is_decoy, r.additional_scores, r.cv_params⟩

/-- Left-biased combination of two optional winners: the earlier winner
is kept unless the later one has a strictly smaller probability.  This is
exactly the comparison discipline of feature.py: within a chunk, idxmin
returns the first index attaining the minimum; across chunks, the stored
entry is replaced only under a strict greater-than (line 42). -/
def combineRow : Option PsmRow → Option PsmRow → Option PsmRow
  | none, y => y
  | some s, none => some s
  | some s, some r =>
    if s.posterior_error_probability ≤ r.posterior_error_probability then some s
    else some r

/-- Embedding of reset_index + idxmin + iloc on one group (feature.py
lines 37-38): pandas idxmin returns the first positional index attaining
the minimum, so the selected row is the first row of the group (in scan
order) whose probability is minimal. -/
def selectFirstMin : List PsmRow → Option PsmRow
  | [] => none
  | r :: rs => combineRow (some r) (selectFirstMin rs)

/-- Embedding of the map_dict update (feature.py lines 39-51): a fresh
key stores the chunk winner; an existing entry is replaced only when the
stored probability is strictly greater than the new one (the float
comparison on line 42 is exact on the modelled rationals). -/
def updateEntry (cur : Option PsmMsg) (r : PsmRow) : PsmMsg :=
  match cur with
  | none => psmMsgOf r
  | some t => if t.pep > r.posterior_error_probability then psmMsgOf r else t

/-- Rows of a chunk belonging to one group key.  pandas groupby preserves
the within-chunk row order inside each group. -/
def groupRows (chunk : List PsmRow) (k : PsmKey) : List PsmRow :=
  chunk.filter (fun r => psmKeyOf r == k)

/-- Effect of processing one streamed chunk on the best-match index
(feature.py lines 33-51).  pandas groupby drops groups whose key contains
a null (dropna=True), hence the guard on a null charge component; the
iteration order over distinct group keys is irrelevant because distinct
keys update distinct entries. -/
def chunkStep (m : PsmKey → Option PsmMsg) (chunk : List PsmRow) : PsmKey → Option PsmMsg :=
  fun k =>
    if k.2.2 = Cell.null then m k
    else
      match selectFirstMin (groupRows chunk k) with
      | none => m k
      | some r => some (updateEntry (m k) r)

/-- Embedding of Feature.extract_psm_msg restricted to the best-match
index map_dict: chunks are streamed in order and folded into the index.
The companion pep_dict (best-scan index) is built by Psm.extract_from_pep,
which lives outside this repository slice and is treated as an abstract
input where needed. -/
def extractPsmMsg (chunks : List (List PsmRow)) : PsmKey → Option PsmMsg :=
  chunks.foldl chunkStep (fun _ => none)

/-! Lemmas about the first-minimum selection. -/

theorem combineRow_none_right (x : Option PsmRow) : combineRow x none = x := by
  cases x <;> rfl

theorem combineRow_assoc (x y z : Option PsmRow) :
    combineRow (combineRow x y) z = combineRow x (combineRow y z) := by
  cases x with
  | none => rfl
  | some s =>
    cases y with
    | none => rfl
    | some r =>
      cases z with
      | none => simp [combineRow_none_right]
      | some u =>
        by_cases hsr : s.posterior_error_probability ≤ r.posterior_error_probability <;>
          by_cases hru : r.posterior_error_probability ≤ u.posterior_error_probability
        · have hsu : s.posterior_error_probability ≤ u.posterior_error_probability :=
            le_trans hsr hru
          simp [combineRow, hsr, hru, hsu]
        · simp [combineRow, hsr, hru]
        · simp [combineRow, hsr, hru]
        · have hsu : ¬ s.posterior_error_probability ≤ u.posterior_error_probability := by
            intro hc
            exact hru (le_trans (le_of_lt (lt_of_not_le hsr)) hc)
          simp [combineRow, hsr, hru, hsu]

theorem selectFirstMin_eq_none_iff (l : List PsmRow) :
    selectFirstMin l = none ↔ l = [] := by
  cases l with
  | nil => simp [selectFirstMin]
  | cons r rs =>
    simp only [selectFirstMin]
    cases selectFirstMin rs with
    | none => simp [combineRow]
    | some s =>
      by_cases h : r.posterior_error_probability ≤ s.posterior_error_probability <;>
        simp [combineRow, h]

theorem selectFirstMin_spec (l : List PsmRow) (r : PsmRow)
    (h : selectFirstMin l = some r) :
    ∃ l₁ l₂, l = l₁ ++ r :: l₂ ∧
      (∀ s ∈ l₁, r.posterior_error_probability < s.posterior_error_probability) ∧
      (∀ s ∈ l, r.posterior_error_probability ≤ s.posterior_error_probability) := by
  induction l generalizing r with
  | nil => simp [selectFirstMin] at h
  | cons a t ih =>
    rw [selectFirstMin] at h
    cases ht : selectFirstMin t with
    | none =>
      rw [ht, combineRow_none_right] at h
      have htnil : t = [] := (selectFirstMin_eq_none_iff t).mp ht
      cases h
      subst htnil
      exact ⟨[], [], by simp, by simp, by simp⟩
    | some s =>
      rw [ht] at h
      obtain ⟨t₁, t₂, hteq, hstrict, hmin⟩ := ih s ht
      by_cases hle : a.posterior_error_probability ≤ s.posterior_error_probability
      · rw [show combineRow (some a) (some s) = some a by simp [combineRow, hle]] at h
        cases h
        refine ⟨[], t, by simp, by simp, ?_⟩
        intro x hx
        rcases List.mem_cons.mp hx with hx | hx
        · subst hx; exact le_refl _
        · exact le_trans hle (hmin x hx)
      · rw [show combineRow (some a) (some s) = some s by simp [combineRow, hle]] at h
        cases h
        refine ⟨a :: t₁, t₂, by rw [hteq]; simp, ?_, ?_⟩
        · intro x hx
          rcases List.mem_cons.mp hx with hx | hx
          · subst hx; exact lt_of_not_le hle
          · exact hstrict x hx
        · intro x hx
          rcases List.mem_cons.mp hx with hx | hx
          · subst hx; exact le_of_lt (lt_of_not_le hle)
          · exact hmin x hx

theorem selectFirstMin_append (l₁ l₂ : List PsmRow) :
    selectFirstMin (l₁ ++ l₂) = combineRow (selectFirstMin l₁) (selectFirstMin l₂) := by
  induction l₁ with
  | nil => simp [selectFirstMin, combineRow]
  | cons a t ih =>
    have hc : (a :: t) ++ l₂ = a :: (t ++ l₂) := rfl
    rw [hc, selectFirstMin, ih, selectFirstMin, combineRow_assoc]

theorem psmMsgOf_pep (r : PsmRow) : (psmMsgOf r).pep = r.posterior_error_probability := rfl

theorem chunkStep_eq (m : PsmKey → Option PsmMsg) (c : List PsmRow) (k : PsmKey)
    (l : List PsmRow) (hk : ¬ k.2.2 = Cell.null)
    (hm : m k = (selectFirstMin l).map psmMsgOf) :
    chunkStep m c k = (selectFirstMin (l ++ groupRows c k)).map psmMsgOf := by
  unfold chunkStep
  rw [if_neg hk, selectFirstMin_append]
  cases hg : selectFirstMin (groupRows c k) with
  | none => rw [combineRow_none_right, hm]
  | some r =>
    cases hl : selectFirstMin l with
    | none =>
      rw [hl] at hm
      simp [combineRow, hm, updateEntry]
    | some s =>
      rw [hl] at hm
      simp only [Option.map_some'] at hm
      rw [hm]
      by_cases hsr : s.posterior_error_probability ≤ r.posterior_error_probability
      · have hngt : ¬ (psmMsgOf s).pep > r.posterior_error_probability := by
          rw [psmMsgOf_pep]
          exact not_lt.mpr hsr
        simp [updateEntry, combineRow, hsr, hngt]
      · have hgt : (psmMsgOf s).pep > r.posterior_error_probability := by
          rw [psmMsgOf_pep]
          exact lt_of_not_le hsr
        simp [updateEntry, combineRow, hsr, hgt]

theorem foldl_chunkStep_eq (cs : List (List PsmRow)) (m : PsmKey → Option PsmMsg)
    (k : PsmKey) (l : List PsmRow) (hk : ¬ k.2.2 = Cell.null)
    (hm : m k = (selectFirstMin l).map psmMsgOf) :
    List.foldl chunkStep m cs k =
      (selectFirstMin (l ++ (cs.map (fun c => groupRows c k)).join)).map psmMsgOf := by
  induction cs generalizing m l with
  | nil => simpa using hm
  | cons c cs ih =>
    have hstep : chunkStep m c k = (selectFirstMin (l ++ groupRows c k)).map psmMsgOf :=
      chunkStep_eq m c k l hk hm
    have := ih (chunkStep m c) (l ++ groupRows c k) hstep
    simpa [List.append_assoc] using this

theorem filter_join_eq (p : PsmRow → Bool) (cs : List (List PsmRow)) :
    cs.join.filter p = (cs.map (fun c => c.filter p)).join := by
  induction cs with
  | nil => simp
  | cons c cs ih => simp [List.filter_append, ih]

/-- Claim C1.  For every PSM source (a list of streamed chunks) and every
group key actually present in the source, the best-match index built by
extract_psm_msg holds exactly one entry for that key, namely the 7-tuple
of the first row (ascending scan order within a chunk, earlier chunk
first across chunks) attaining the minimum posterior error probability of
the whole group: every row strictly before the selected one has a
strictly larger probability (first-encountered wins on exact ties) and
every row of the group has a probability greater than or equal to the
selected one, regardless of how the group is distributed over chunks. -/
theorem extract_psm_best_match (chunks : List (List PsmRow)) (k : PsmKey)
    (hk : ¬ k.2.2 = Cell.null)
    (hne : chunks.join.filter (fun r => psmKeyOf r == k) ≠ []) :
    ∃ l₁ r l₂,
      chunks.join.filter (fun r => psmKeyOf r == k) = l₁ ++ r :: l₂ ∧
      extractPsmMsg chunks k = some (psmMsgOf r) ∧
      (∀ s ∈ l₁, r.posterior_error_probability < s.posterior_error_probability) ∧
      (∀ s ∈ l₁ ++ r :: l₂,
        r.posterior_error_probability ≤ s.posterior_error_probability) := by
  have hgroups : (chunks.map (fun c => groupRows c k)).join =
      chunks.join.filter (fun r => psmKeyOf r == k) := by
    rw [filter_join_eq]
    rfl
  have hfold := foldl_chunkStep_eq chunks (fun _ => none) k [] hk (by simp [selectFirstMin])
  rw [List.nil_append, hgroups] at hfold
  cases hsel : selectFirstMin (chunks.join.filter (fun r => psmKeyOf r == k)) with
  | none =>
    exact absurd ((selectFirstMin_eq_none_iff _).mp hsel) hne
  | some r =>
    obtain ⟨l₁, l₂, heq, hstrict, hmin⟩ := selectFirstMin_spec _ r hsel
    refine ⟨l₁, r, l₂, heq, ?_, hstrict, ?_⟩
    · rw [extractPsmMsg, hfold, hsel]
      rfl
    · intro s hs
      exact hmin s (by rw [heq]; exact hs)

/-- Concrete input data for the C1 witness: one group key spread over two
chunks with an exact probability tie between the winner of chunk one and
a row of chunk two. -/
def psmRowA : PsmRow :=
  ⟨"fileA", "PEP(ox)TIDE", Cell.num 2, 3, 100, 101, "P1", 0, "sA", "cA"⟩

def psmRowB : PsmRow :=
  ⟨"fileA", "PEP(ox)TIDE", Cell.num 2, 1, 200, 201, "P2", 0, "sB", "cB"⟩

def psmRowC : PsmRow :=
  ⟨"fileA", "PEP(ox)TIDE", Cell.num 2, 1, 300, 301, "P3", 1, "sC", "cC"⟩

def psmChunksW : List (List PsmRow) := [[psmRowA, psmRowB], [psmRowC]]

def psmKeyW : PsmKey := ("fileA", "PEP(ox)TIDE", Cell.num 2)

/-- Witness for claim C1 at a concrete input. -/
theorem extract_psm_best_match_witness :
    (¬ psmKeyW.2.2 = Cell.null) ∧
    (psmChunksW.join.filter (fun r => psmKeyOf r == psmKeyW) ≠ []) ∧
    (∃ l₁ r l₂,
      psmChunksW.join.filter (fun r => psmKeyOf r == psmKeyW) = l₁ ++ r :: l₂ ∧
      extractPsmMsg psmChunksW psmKeyW = some (psmMsgOf r) ∧
      (∀ s ∈ l₁, r.posterior_error_probability < s.posterior_error_probability) ∧
      (∀ s ∈ l₁ ++ r :: l₂,
        r.posterior_error_probability ≤ s.posterior_error_probability)) :=
  ⟨by decide, by decide, extract_psm_best_match psmChunksW psmKeyW (by decide) (by decide)⟩

/-! ### Feature (msstats) row model

A quantification row as seen by Feature.merge_msstats_and_psm,
Feature.add_additional_msg and Feature.convert_to_parquet_format.  The
three join-key columns are typed as in the PSM model; every column that
the pipeline writes or coerces is carried as a raw cell value.  The
intensity and sample columns are irrelevant to the claims and omitted;
record updates below touch exactly the columns touched by the code. -/

structure FeatureRow where
  reference_file_name : String
  peptidoform : String
  precursor_charge : Cell
  posterior_error_probability : Cell
  calculated_mz : Cell
  observed_mz : Cell
  mp_accessions : Cell
  is_decoy : Cell
  additional_scores : Cell
  cv_params : Cell
  pg_global_qvalue : Cell
  scan_reference_file_name : Cell
  scan : Cell
  modifications : Cell
  rt : Cell
  unique : Cell
  additional_intensities : Cell
  predicted_rt : Cell
  gg_accessions : Cell
  gg_names : Cell
  rt_start : Cell
  rt_stop : Cell
  ion_mobility : Cell
  start_ion_mobility : Cell
  stop_ion_mobility : Cell
deriving DecidableEq, Repr

/-- Join key of a quantification row (feature.py lines 77-81). -/
def featureKey (r : FeatureRow) : PsmKey :=
  (r.reference_file_name, r.peptidoform, r.precursor_charge)

/-- Embedding of Feature.merge_msstats_and_psm (feature.py lines 64-93)
restricted to one row: the seven PSM-derived columns are assigned from
the stored 7-slot entry of map_dict when the key is present, and None
otherwise.  The code assigns the columns one apply-pass per column, but
each pass reads only the three untouched key columns, so the net effect
is this single per-row assignment. -/
def mergeRowPsm (m : PsmKey → Option PsmMsg) (r : FeatureRow) : FeatureRow :=
  match m (featureKey r) with
  | none =>
    { r with posterior_error_probability := Cell.null, calculated_mz := Cell.null,
             observed_mz := Cell.null, mp_accessions := Cell.null,
             is_decoy := Cell.null, additional_scores := Cell.null,
             cv_params := Cell.null }
  | some t =>
    { r with posterior_error_probability := Cell.num t.pep,
             calculated_mz := Cell.num t.calcMz, observed_mz := Cell.num t.obsMz,
             mp_accessions := Cell.str t.acc, is_decoy := Cell.num (t.decoy : ℚ),
             additional_scores := Cell.str t.scores, cv_params := Cell.str t.cv }

/-- Embedding of Feature.merge_msstats_and_psm on a whole batch: a
column assignment via apply(axis=1) maps every row and drops or adds
none. -/
def mergeMsstatsAndPsm (m : PsmKey → Option PsmMsg) (rows : List FeatureRow) :
    List FeatureRow :=
  rows.map (mergeRowPsm m)

/-- The seven PSM-derived columns of an output row, in map_features order
(feature.py lines 66-74). -/
def psmFields (r : FeatureRow) : Cell × Cell × Cell × Cell × Cell × Cell × Cell :=
  (r.posterior_error_probability, r.calculated_mz, r.observed_mz,
   r.mp_accessions, r.is_decoy, r.additional_scores, r.cv_params)

/-- The seven merged values determined by a lookup result. -/
def mergedPsmFields : Option PsmMsg → Cell × Cell × Cell × Cell × Cell × Cell × Cell
  | none => (Cell.null, Cell.null, Cell.null, Cell.null, Cell.null, Cell.null, Cell.null)
  | some t =>
    (Cell.num t.pep, Cell.num t.calcMz, Cell.num t.obsMz, Cell.str t.acc,
     Cell.num (t.decoy : ℚ), Cell.str t.scores, Cell.str t.cv)

theorem featureKey_mergeRowPsm (m : PsmKey → Option PsmMsg) (r : FeatureRow) :
    featureKey (mergeRowPsm m r) = featureKey r := by
  unfold mergeRowPsm
  cases m (featureKey r) <;> rfl

theorem psmFields_mergeRowPsm (m : PsmKey → Option PsmMsg) (r : FeatureRow) :
    psmFields (mergeRowPsm m r) = mergedPsmFields (m (featureKey r)) := by
  unfold mergeRowPsm
  cases m (featureKey r) <;> rfl

/-- Claim C2.  merge_msstats_and_psm is a pure lookup join: the output
batch has exactly the row count of the input batch; the row at each
input position keeps its key columns; a row whose key is absent from the
index gets null in all seven PSM-derived columns; a row whose key is
present gets that key's stored 7-tuple; and any two output rows sharing
a key carry identical PSM-derived columns. -/
theorem merge_msstats_psm_lookup_join (m : PsmKey → Option PsmMsg)
    (rows : List FeatureRow) :
    (mergeMsstatsAndPsm m rows).length = rows.length ∧
    (∀ i r, rows.get? i = some r →
      ∃ q, (mergeMsstatsAndPsm m rows).get? i = some q ∧
        featureKey q = featureKey r ∧
        (m (featureKey r) = none →
          psmFields q = (Cell.null, Cell.null, Cell.null, Cell.null,
                         Cell.null, Cell.null, Cell.null)) ∧
        (∀ t, m (featureKey r) = some t →
          psmFields q = (Cell.num t.pep, Cell.num t.calcMz, Cell.num t.obsMz,
                         Cell.str t.acc, Cell.num (t.decoy : ℚ),
                         Cell.str t.scores, Cell.str t.cv))) ∧
    (∀ q q', q ∈ mergeMsstatsAndPsm m rows → q' ∈ mergeMsstatsAndPsm m rows →
      featureKey q = featureKey q' → psmFields q = psmFields q') := by
  refine ⟨by simp [mergeMsstatsAndPsm], ?_, ?_⟩
  · intro i r hr
    refine ⟨mergeRowPsm m r, ?_, featureKey_mergeRowPsm m r, ?_, ?_⟩
    · rw [mergeMsstatsAndPsm, List.get?_map, hr]
      rfl
    · intro hnone
      rw [psmFields_mergeRowPsm, hnone]
      rfl
    · intro t ht
      rw [psmFields_mergeRowPsm, ht]
      rfl
  · intro q q' hq hq' hkey
    rw [mergeMsstatsAndPsm, List.mem_map] at hq hq'
    obtain ⟨a, _, ha⟩ := hq
    obtain ⟨b, _, hb⟩ := hq'
    subst ha
    subst hb
    rw [psmFields_mergeRowPsm, psmFields_mergeRowPsm]
    rw [featureKey_mergeRowPsm, featureKey_mergeRowPsm] at hkey
    rw [hkey]

/-- Concrete inputs for the C2 witness: an index holding one key, and a
batch with two rows on that key and one row on a missing key. -/
def psmMsgW : PsmMsg := ⟨1, 100, 101, "P1", 0, "sA", "cA"⟩

def psmMapW : PsmKey → Option PsmMsg :=
  fun k => if k = ("fileA", "PEP(ox)TIDE", Cell.num 2) then some psmMsgW else none

def featureRowBase : FeatureRow :=
  ⟨"fileA", "PEP(ox)TIDE", Cell.num 2, Cell.null, Cell.null, Cell.null,
   Cell.str "P9", Cell.null, Cell.null, Cell.null, Cell.null, Cell.null,
   Cell.null, Cell.null, Cell.num 7, Cell.num 1, Cell.null, Cell.null,
   Cell.null, Cell.null, Cell.null, Cell.null, Cell.null, Cell.null, Cell.null⟩

def featureRowOther : FeatureRow :=
  { featureRowBase with reference_file_name := "fileB" }

def featureRowsW : List FeatureRow := [featureRowBase, featureRowOther, featureRowBase]

/-- Witness for claim C2 at a concrete input. -/
theorem merge_msstats_psm_lookup_join_witness :
    (mergeMsstatsAndPsm psmMapW featureRowsW).length = featureRowsW.length ∧
    (∃ q, (mergeMsstatsAndPsm psmMapW featureRowsW).get? 1 = some q ∧
      featureKey q = featureKey featureRowOther ∧
      (psmMapW (featureKey featureRowOther) = none →
        psmFields q = (Cell.null, Cell.null, Cell.null, Cell.null,
                       Cell.null, Cell.null, Cell.null)) ∧
      (∀ t, psmMapW (featureKey featureRowOther) = some t →
        psmFields q = (Cell.num t.pep, Cell.num t.calcMz, Cell.num t.obsMz,
                       Cell.str t.acc, Cell.num (t.decoy : ℚ),
                       Cell.str t.scores, Cell.str t.cv))) :=
  ⟨(merge_msstats_psm_lookup_join psmMapW featureRowsW).1,
   (merge_msstats_psm_lookup_join psmMapW featureRowsW).2.1 1 featureRowOther (by rfl)⟩

/-! ### Annotation step (Feature.add_additional_msg, feature.py lines 252-280)

The protein q-value map, the peptide-level best-scan index pep_dict
(built by Psm.extract_from_pep outside this repository slice), the
modification decoder generate_modifications_details together with its
Aho-Corasick automaton (quantmsio.operate.tools, outside this slice) and
get_protein_accession are all consumed as abstract functions: the claims
below concern only how add_additional_msg wires them, which is fully
visible in feature.py. -/

/-- Embedding of Feature.generate_best_scan (feature.py lines 244-250):
look up (peptidoform, precursor_charge) in pep_dict and return the stored
(scan_reference_file_name, scan) pair, or (None, None) when absent. -/
def generateBestScan (pepDict : String × Cell → Option (Cell × Cell))
    (peptidoform : String) (charge : Cell) : Cell × Cell :=
  match pepDict (peptidoform, charge) with
  | some fs => fs
  | none => (Cell.null, Cell.null)

/-- Embedding of Feature.add_additional_msg on one row, preserving the
statement order of feature.py lines 252-280: the q-value map is applied
to the merged accession column (line 254), the best-scan pair is looked
up by the original peptidoform and charge (lines 257-263), the
peptidoform is rewritten together with the decoded modifications (lines
264-270), the accession is normalised (line 271), and the nine reserved
placeholder columns are set to None (lines 272-280). -/
def addRowAdditional (qvalueMap : Cell → Option ℚ)
    (pepDict : String × Cell → Option (Cell × Cell))
    (modsFn : String → String × Cell) (accFn : Cell → Cell)
    (r : FeatureRow) : FeatureRow :=
  let pg : Cell :=
    match qvalueMap r.mp_accessions with
    | some q => Cell.num q
    | none => Cell.null
  let scans := generateBestScan pepDict r.peptidoform r.precursor_charge
  let pm := modsFn r.peptidoform
  { r with pg_global_qvalue := pg,
           scan_reference_file_name := scans.1, scan := scans.2,
           peptidoform := pm.1, modifications := pm.2,
           mp_accessions := accFn r.mp_accessions,
           additional_intensities := Cell.null, predicted_rt := Cell.null,
           gg_accessions := Cell.null, gg_names := Cell.null,
           rt_start := Cell.null, rt_stop := Cell.null,
           ion_mobility := Cell.null, start_ion_mobility := Cell.null,
           stop_ion_mobility := Cell.null }

/-- Embedding of Feature.add_additional_msg on a batch: every assignment
is a whole-column apply, i.e. a per-row map. -/
def addAdditionalMsg (qvalueMap : Cell → Option ℚ)
    (pepDict : String × Cell → Option (Cell × Cell))
    (modsFn : String → String × Cell) (accFn : Cell → Cell)
    (rows : List FeatureRow) : List FeatureRow :=
  rows.map (addRowAdditional qvalueMap pepDict modsFn accFn)

/-! ### Type coercion step (Feature.convert_to_parquet_format, feature.py
lines 282-331), row-wise view.

pd.to_numeric with errors=coerce maps an already numeric value to
itself, a parsable string to its value and anything else (including
null) to NaN; astype(Int32) on a coerced column keeps nulls, keeps
integral values and raises on a non-integral value; astype(str) renders
every cell as its Python string form, turning None into the string
None.  The numeric-string parser of pandas is consumed as an abstract
function parse.  This row-wise view covers a batch in which all the
columns the function indexes unconditionally are present; the
column-presence behaviour is modelled separately below. -/

def toNumericCell (parse : String → Option ℚ) : Cell → Cell
  | Cell.null => Cell.null
  | Cell.num q => Cell.num q
  | Cell.str s =>
    match parse s with
    | some q => Cell.num q
    | none => Cell.null

def astypeInt32 : Cell → Except String Cell
  | Cell.null => Except.ok Cell.null
  | Cell.num q =>
    if q.den = 1 then Except.ok (Cell.num q)
    else Except.error "cannot safely cast non-equivalent values to Int32"
  | Cell.str s => Except.error ("cannot convert string to Int32: " ++ s)

/-- Python str() rendering of a cell as performed by astype(str): None
renders as the string None; numeric rendering is abstracted by the
rational printer, which agrees with Python on integers. -/
def pyStr : Cell → String
  | Cell.null => "None"
  | Cell.num q => toString q
  | Cell.str s => s

/-- Embedding of Feature.convert_to_parquet_format on one row with all
unconditionally indexed columns present.  The four float columns, the
charge and decoy columns and rt are coerced with errors=coerce; unique,
precursor_charge and is_decoy are additionally cast to Int32, whose
failure aborts the batch in the order unique, precursor_charge, is_decoy
(the order of the assignments in feature.py lines 309-321); the two scan
columns are rendered with astype(str) (lines 324-325). -/
def convertRow (parse : String → Option ℚ) (r : FeatureRow) :
    Except String FeatureRow :=
  match astypeInt32 (toNumericCell parse r.unique),
        astypeInt32 (toNumericCell parse r.precursor_charge),
        astypeInt32 (toNumericCell parse r.is_decoy) with
  | Except.error e, _, _ => Except.error e
  | Except.ok _, Except.error e, _ => Except.error e
  | Except.ok _, Except.ok _, Except.error e => Except.error e
  | Except.ok u, Except.ok c, Except.ok d =>
    Except.ok
      { r with
        pg_global_qvalue := toNumericCell parse r.pg_global_qvalue,
        calculated_mz := toNumericCell parse r.calculated_mz,
        observed_mz := toNumericCell parse r.observed_mz,
        posterior_error_probability :=
          toNumericCell parse r.posterior_error_probability,
        unique := u,
        precursor_charge := c,
        is_decoy := d,
        scan := Cell.str (pyStr r.scan),
        scan_reference_file_name := Cell.str (pyStr r.scan_reference_file_name),
        rt := toNumericCell parse r.rt }

/-- Embedding of Feature.convert_to_parquet_format on a batch: the first
failing cast aborts the whole batch, otherwise every row is coerced in
place and no row is dropped or added. -/
def convertRows (parse : String → Option ℚ) :
    List FeatureRow → Except String (List FeatureRow)
  | [] => Except.ok []
  | r :: rs =>
    match convertRow parse r with
    | Except.error e => Except.error e
    | Except.ok q =>
      match convertRows parse rs with
      | Except.error e => Except.error e
      | Except.ok qs => Except.ok (q :: qs)

/-! ### Composed report generator (Feature.generate_feature_report,
feature.py lines 104-114) -/

/-- Generator semantics of the per-batch loop: batches are processed in
order and yielded after conversion; the first exception aborts the
remaining sequence, so the consumer sees the successfully converted
prefix and then the error. -/
def yieldedBatches (f : List FeatureRow → Except String (List FeatureRow)) :
    List (List FeatureRow) → List (List FeatureRow) × Option String
  | [] => ([], none)
  | b :: bs =>
    match f b with
    | Except.error e => ([], some e)
    | Except.ok g =>
      let p := yieldedBatches f bs
      (g :: p.1, p.2)

/-- One iteration of the loop body of generate_feature_report (feature.py
lines 110-114): merge the PSM index in, annotate, coerce. -/
def processBatch (m : PsmKey → Option PsmMsg) (qvalueMap : Cell → Option ℚ)
    (pepDict : String × Cell → Option (Cell × Cell))
    (modsFn : String → String × Cell) (accFn : Cell → Cell)
    (parse : String → Option ℚ) (b : List FeatureRow) :
    Except String (List FeatureRow) :=
  convertRows parse
    (addAdditionalMsg qvalueMap pepDict modsFn accFn (mergeMsstatsAndPsm m b))

/-- Embedding of Feature.generate_feature_report given the already built
best-match index and the stream of quantification batches. -/
def generateFeatureReport (m : PsmKey → Option PsmMsg)
    (qvalueMap : Cell → Option ℚ)
    (pepDict : String × Cell → Option (Cell × Cell))
    (modsFn : String → String × Cell) (accFn : Cell → Cell)
    (parse : String → Option ℚ) (batches : List (List FeatureRow)) :
    List (List FeatureRow) × Option String :=
  yieldedBatches (processBatch m qvalueMap pepDict modsFn accFn parse) batches

/-- Modelled from the spec: the quantification stream generator
(MsstatsIN.generate_msstats_in, not part of this repository slice)
produces a deterministic finite sequence of batches from the msstats
source and SDRF metadata alone (spec sections 4.2 and 8.5: batch
boundaries are driven by the configured parameters and carry source
order; an identical rerun yields identical batches).  The batches are
therefore taken directly as an input of the full pipeline, and a run is
additionally given an environment seed (clock, process identity) that
the pipeline never reads. -/
def runConversionPipeline (runEnv : Nat) (psmChunks : List (List PsmRow))
    (qvalueMap : Cell → Option ℚ)
    (pepDict : String × Cell → Option (Cell × Cell))
    (modsFn : String → String × Cell) (accFn : Cell → Cell)
    (parse : String → Option ℚ) (batches : List (List FeatureRow)) :
    List (List FeatureRow) × Option String :=
  generateFeatureReport (extractPsmMsg psmChunks) qvalueMap pepDict modsFn
    accFn parse batches

/-! ### Claim C6: per-value coercion errors become null, locally -/

/-- Enumeration of the numeric columns coerced by
convert_to_parquet_format. -/
inductive NumCol where
  | pg | calcMz | obsMz | pep | uniq | charge | decoy | rt
deriving DecidableEq, Repr

def setNumCol : NumCol → Cell → FeatureRow → FeatureRow
  | NumCol.pg, v, r => { r with pg_global_qvalue := v }
  | NumCol.calcMz, v, r => { r with calculated_mz := v }
  | NumCol.obsMz, v, r => { r with observed_mz := v }
  | NumCol.pep, v, r => { r with posterior_error_probability := v }
  | NumCol.uniq, v, r => { r with unique := v }
  | NumCol.charge, v, r => { r with precursor_charge := v }
  | NumCol.decoy, v, r => { r with is_decoy := v }
  | NumCol.rt, v, r => { r with rt := v }

/-- Replacement of the element at one position of a list, leaving every
other element untouched. -/
def updateAt {α : Type} (g : α → α) : Nat → List α → List α
  | _, [] => []
  | 0, a :: l => g a :: l
  | n + 1, a :: l => a :: updateAt g n l

theorem convertRow_set_junk (parse : String → Option ℚ) (junk : String)
    (hp : parse junk = none) (f : NumCol) (r q : FeatureRow)
    (h : convertRow parse r = Except.ok q) :
    convertRow parse (setNumCol f (Cell.str junk) r) =
      Except.ok (setNumCol f Cell.null q) := by
  have hjunk : toNumericCell parse (Cell.str junk) = Cell.null := by
    simp [toNumericCell, hp]
  cases hu : astypeInt32 (toNumericCell parse r.unique) with
  | error e => simp [convertRow, hu] at h
  | ok u =>
  cases hc : astypeInt32 (toNumericCell parse r.precursor_charge) with
  | error e => simp [convertRow, hu, hc] at h
  | ok c =>
  cases hd : astypeInt32 (toNumericCell parse r.is_decoy) with
  | error e => simp [convertRow, hu, hc, hd] at h
  | ok d =>
  simp only [convertRow, hu, hc, hd] at h
  cases h
  have hnullcast : astypeInt32 Cell.null = Except.ok Cell.null := rfl
  cases f <;>
    simp [convertRow, setNumCol, hu, hc, hd, hjunk, hnullcast]

theorem convertRows_set_junk (parse : String → Option ℚ) (junk : String)
    (hp : parse junk = none) (f : NumCol) (i : Nat)
    (rows out : List FeatureRow)
    (h : convertRows parse rows = Except.ok out) :
    convertRows parse (updateAt (setNumCol f (Cell.str junk)) i rows) =
      Except.ok (updateAt (setNumCol f Cell.null) i out) := by
  induction rows generalizing i out with
  | nil =>
    simp only [convertRows] at h
    cases h
    cases i <;> simp [updateAt, convertRows]
  | cons r rs ih =>
    cases hr : convertRow parse r with
    | error e => simp [convertRows, hr] at h
    | ok q =>
    cases hrs : convertRows parse rs with
    | error e => simp [convertRows, hr, hrs] at h
    | ok qs =>
    simp only [convertRows, hr, hrs] at h
    cases h
    cases i with
    | zero =>
      simp [updateAt, convertRows, convertRow_set_junk parse junk hp f r q hr, hrs]
    | succ n =>
      simp [updateAt, convertRows, hr, ih n qs hrs]

theorem convertRows_length (parse : String → Option ℚ)
    (rows out : List FeatureRow) (h : convertRows parse rows = Except.ok out) :
    out.length = rows.length := by
  induction rows generalizing out with
  | nil =>
    simp only [convertRows] at h
    cases h
    rfl
  | cons r rs ih =>
    cases hr : convertRow parse r with
    | error e => simp [convertRows, hr] at h
    | ok q =>
    cases hrs : convertRows parse rs with
    | error e => simp [convertRows, hr, hrs] at h
    | ok qs =>
    simp only [convertRows, hr, hrs] at h
    cases h
    simp [ih qs hrs]

/-- Claim C6.  convert_to_parquet_format recovers per-value coercion
errors locally: whenever a batch converts successfully, the batch
obtained by replacing any one cell of any numeric column by an
unparsable string still converts successfully, with exactly that cell
turned into null and every other value of every row unchanged; in
particular the unparsable value neither raises, nor drops the row, nor
perturbs the rest of the batch, and conversion never changes the row
count. -/
theorem convert_unparsable_value_local (parse : String → Option ℚ)
    (junk : String) (f : NumCol) (i : Nat) (rows out : List FeatureRow)
    (hp : parse junk = none)
    (h : convertRows parse rows = Except.ok out) :
    out.length = rows.length ∧
    convertRows parse (updateAt (setNumCol f (Cell.str junk)) i rows) =
      Except.ok (updateAt (setNumCol f Cell.null) i out) :=
  ⟨convertRows_length parse rows out h,
   convertRows_set_junk parse junk hp f i rows out h⟩

/-- Abstract pandas numeric parser instance and conversion output used by
the witnesses below. -/
def parse0 : String → Option ℚ := fun s => if s = "7" then some 7 else none

def convertedBaseRow : FeatureRow :=
  ⟨"fileA", "PEP(ox)TIDE", Cell.num 2, Cell.null, Cell.null, Cell.null,
   Cell.null, Cell.null, Cell.null, Cell.null, Cell.null,
   Cell.str "None", Cell.str "None", Cell.null, Cell.num 7, Cell.num 1,
   Cell.null, Cell.null, Cell.null, Cell.null, Cell.null, Cell.null,
   Cell.null, Cell.null, Cell.null⟩

/-- Witness for claim C6 at a concrete input: poisoning the observed m/z
column of the only row with an unparsable string yields the same
converted batch with exactly that cell nulled. -/
theorem convert_unparsable_value_local_witness :
    (parse0 "bad-mz" = none) ∧
    convertRows parse0 [convertedBaseRow] = Except.ok [convertedBaseRow] ∧
    convertRows parse0
        (updateAt (setNumCol NumCol.obsMz (Cell.str "bad-mz")) 0
          [convertedBaseRow]) =
      Except.ok (updateAt (setNumCol NumCol.obsMz Cell.null) 0
        [convertedBaseRow]) :=
  ⟨rfl, rfl,
   (convert_unparsable_value_local parse0 "bad-mz" NumCol.obsMz 0
      [convertedBaseRow] [convertedBaseRow] rfl rfl).2⟩

/-! ### Claim C7: best-scan lookup and the astype(str) rendering -/

/-- Concrete abstract collaborators for the pipeline-level witnesses: an
empty best-match index, empty q-value and best-scan maps, an identity
modification decoder and accession normaliser. -/
def mapNone : PsmKey → Option PsmMsg := fun _ => none

def qvalueMap0 : Cell → Option ℚ := fun _ => none

def pepDict0 : String × Cell → Option (Cell × Cell) := fun _ => none

def modsFn0 : String → String × Cell := fun s => (s, Cell.null)

def accFn0 : Cell → Cell := fun c => c

/-- Counterexample to claim C7 as stated: in the batch yielded by
generate_feature_report for a row whose (peptidoform, precursor_charge)
pair is absent from the peptide-level index, both scan fields hold the
non-null string rendering None produced by astype(str), not null. -/
theorem best_scan_unmatched_not_null_counterexample :
    ((generateFeatureReport mapNone qvalueMap0 pepDict0 modsFn0 accFn0 parse0
        [[featureRowBase]]).1.map (fun b => b.map FeatureRow.scan) =
      [[Cell.str "None"]]) ∧
    ((generateFeatureReport mapNone qvalueMap0 pepDict0 modsFn0 accFn0 parse0
        [[featureRowBase]]).1.map
          (fun b => b.map FeatureRow.scan_reference_file_name) =
      [[Cell.str "None"]]) ∧
    Cell.str "None" ≠ Cell.null := by
  refine ⟨?_, ?_, by decide⟩ <;> rfl

/-- Claim C7, amended.  generate_best_scan inside add_additional_msg
fills the scan fields with the stored pair when (peptidoform,
precursor_charge) is present in the peptide-level index and with
(null, null) when absent; convert_to_parquet_format then renders both
scan columns with astype(str), so in the yielded batch an unmatched row
carries the string rendering None of null (a non-null placeholder) in
both fields, and a matched row carries the string rendering of the
stored values. -/
theorem best_scan_lookup_then_str (qvalueMap : Cell → Option ℚ)
    (pepDict : String × Cell → Option (Cell × Cell))
    (modsFn : String → String × Cell) (accFn : Cell → Cell)
    (parse : String → Option ℚ) (r q : FeatureRow) :
    (pepDict (r.peptidoform, r.precursor_charge) = none →
      (addRowAdditional qvalueMap pepDict modsFn accFn r).scan_reference_file_name =
          Cell.null ∧
      (addRowAdditional qvalueMap pepDict modsFn accFn r).scan = Cell.null) ∧
    (∀ fs, pepDict (r.peptidoform, r.precursor_charge) = some fs →
      (addRowAdditional qvalueMap pepDict modsFn accFn r).scan_reference_file_name =
          fs.1 ∧
      (addRowAdditional qvalueMap pepDict modsFn accFn r).scan = fs.2) ∧
    (convertRow parse r = Except.ok q →
      q.scan = Cell.str (pyStr r.scan) ∧
      q.scan_reference_file_name = Cell.str (pyStr r.scan_reference_file_name)) ∧
    pyStr Cell.null = "None" := by
  refine ⟨?_, ?_, ?_, rfl⟩
  · intro hnone
    simp [addRowAdditional, generateBestScan, hnone]
  · intro fs hfs
    simp [addRowAdditional, generateBestScan, hfs]
  · intro h
    cases hu : astypeInt32 (toNumericCell parse r.unique) with
    | error e => simp [convertRow, hu] at h
    | ok u =>
    cases hc : astypeInt32 (toNumericCell parse r.precursor_charge) with
    | error e => simp [convertRow, hu, hc] at h
    | ok c =>
    cases hd : astypeInt32 (toNumericCell parse r.is_decoy) with
    | error e => simp [convertRow, hu, hc, hd] at h
    | ok d =>
    simp only [convertRow, hu, hc, hd] at h
    cases h
    exact ⟨rfl, rfl⟩

/-- The annotated (pre-conversion) form of the witness row. -/
def annotatedBaseRow : FeatureRow :=
  addRowAdditional qvalueMap0 pepDict0 modsFn0 accFn0
    (mergeRowPsm mapNone featureRowBase)

/-- Witness for the amended claim C7 at a concrete input. -/
theorem best_scan_lookup_then_str_witness :
    (annotatedBaseRow.scan_reference_file_name = Cell.null ∧
     annotatedBaseRow.scan = Cell.null) ∧
    (convertedBaseRow.scan = Cell.str (pyStr annotatedBaseRow.scan) ∧
     convertedBaseRow.scan_reference_file_name =
       Cell.str (pyStr annotatedBaseRow.scan_reference_file_name)) :=
  ⟨(best_scan_lookup_then_str qvalueMap0 pepDict0 modsFn0 accFn0 parse0
      (mergeRowPsm mapNone featureRowBase) convertedBaseRow).1 rfl,
   (best_scan_lookup_then_str qvalueMap0 pepDict0 modsFn0 accFn0 parse0
      annotatedBaseRow convertedBaseRow).2.2.1 rfl⟩

/-! ### Claim C8: deterministic rerun -/

/-- Claim C8.  The feature report is a pure function of the PSM chunks,
the abstract collaborator maps and the quantification batches: two runs
differing only in their run environment (clock, process identity, or any
run-specific seed, which the pipeline never reads) yield equal sequences
of batches with equal batch boundaries, rows and values, so output files
written from them under a caller-supplied stable filename are
byte-for-byte identical. -/
theorem pipeline_rerun_deterministic (env₁ env₂ : Nat)
    (psmChunks : List (List PsmRow)) (qvalueMap : Cell → Option ℚ)
    (pepDict : String × Cell → Option (Cell × Cell))
    (modsFn : String → String × Cell) (accFn : Cell → Cell)
    (parse : String → Option ℚ) (batches : List (List FeatureRow)) :
    runConversionPipeline env₁ psmChunks qvalueMap pepDict modsFn accFn
        parse batches =
      runConversionPipeline env₂ psmChunks qvalueMap pepDict modsFn accFn
        parse batches := rfl

/-! ### Claim C9: reserved placeholder columns are always null -/

theorem convertRow_placeholders (parse : String → Option ℚ) (r q : FeatureRow)
    (h : convertRow parse r = Except.ok q) :
    q.additional_intensities = r.additional_intensities ∧
    q.predicted_rt = r.predicted_rt ∧
    q.gg_accessions = r.gg_accessions ∧
    q.gg_names = r.gg_names ∧
    q.rt_start = r.rt_start ∧
    q.rt_stop = r.rt_stop ∧
    q.ion_mobility = r.ion_mobility ∧
    q.start_ion_mobility = r.start_ion_mobility ∧
    q.stop_ion_mobility = r.stop_ion_mobility := by
  cases hu : astypeInt32 (toNumericCell parse r.unique) with
  | error e => simp [convertRow, hu] at h
  | ok u =>
  cases hc : astypeInt32 (toNumericCell parse r.precursor_charge) with
  | error e => simp [convertRow, hu, hc] at h
  | ok c =>
  cases hd : astypeInt32 (toNumericCell parse r.is_decoy) with
  | error e => simp [convertRow, hu, hc, hd] at h
  | ok d =>
  simp only [convertRow, hu, hc, hd] at h
  cases h
  exact ⟨rfl, rfl, rfl, rfl, rfl, rfl, rfl, rfl, rfl⟩

theorem mem_of_convertRows (parse : String → Option ℚ)
    (l l' : List FeatureRow) (h : convertRows parse l = Except.ok l')
    (q : FeatureRow) (hq : q ∈ l') :
    ∃ r ∈ l, convertRow parse r = Except.ok q := by
  induction l generalizing l' with
  | nil =>
    simp only [convertRows] at h
    cases h
    simp at hq
  | cons r rs ih =>
    cases hr : convertRow parse r with
    | error e => simp [convertRows, hr] at h
    | ok p =>
    cases hrs : convertRows parse rs with
    | error e => simp [convertRows, hr, hrs] at h
    | ok ps =>
    simp only [convertRows, hr, hrs] at h
    cases h
    rcases List.mem_cons.mp hq with hq | hq
    · subst hq
      exact ⟨r, List.mem_cons_self r rs, hr⟩
    · obtain ⟨a, ha, hconv⟩ := ih ps hrs hq
      exact ⟨a, List.mem_cons_of_mem r ha, hconv⟩

theorem mem_of_yieldedBatches
    (f : List FeatureRow → Except String (List FeatureRow))
    (bs : List (List FeatureRow)) (b : List FeatureRow)
    (hb : b ∈ (yieldedBatches f bs).1) :
    ∃ a ∈ bs, f a = Except.ok b := by
  induction bs with
  | nil => simp [yieldedBatches] at hb
  | cons a rest ih =>
    cases ha : f a with
    | error e =>
      rw [yieldedBatches, ha] at hb
      simp at hb
    | ok g =>
      rw [yieldedBatches, ha] at hb
      rcases List.mem_cons.mp hb with hb | hb
      · subst hb
        exact ⟨a, List.mem_cons_self a rest, ha⟩
      · obtain ⟨c, hc, hfc⟩ := ih hb
        exact ⟨c, List.mem_cons_of_mem a hc, hfc⟩

/-- Claim C9.  Every batch yielded by generate_feature_report carries the
nine schema-reserved placeholder columns with a null value in every row,
for every input: add_additional_msg sets them to None and the type
coercion step never touches them. -/
theorem report_placeholder_columns_null (m : PsmKey → Option PsmMsg)
    (qvalueMap : Cell → Option ℚ)
    (pepDict : String × Cell → Option (Cell × Cell))
    (modsFn : String → String × Cell) (accFn : Cell → Cell)
    (parse : String → Option ℚ) (batches : List (List FeatureRow)) :
    ∀ b ∈ (generateFeatureReport m qvalueMap pepDict modsFn accFn parse
        batches).1, ∀ r ∈ b,
      r.additional_intensities = Cell.null ∧ r.predicted_rt = Cell.null ∧
      r.gg_accessions = Cell.null ∧ r.gg_names = Cell.null ∧
      r.rt_start = Cell.null ∧ r.rt_stop = Cell.null ∧
      r.ion_mobility = Cell.null ∧ r.start_ion_mobility = Cell.null ∧
      r.stop_ion_mobility = Cell.null := by
  intro b hb r hr
  obtain ⟨a, _, ha⟩ := mem_of_yieldedBatches _ batches b hb
  obtain ⟨p, hp, hconv⟩ := mem_of_convertRows parse _ b ha r hr
  rw [addAdditionalMsg, List.mem_map] at hp
  obtain ⟨p0, _, hp0⟩ := hp
  have hpres := convertRow_placeholders parse p r hconv
  subst hp0
  simpa [addRowAdditional] using hpres

/-- Witness for claim C9 at a concrete input. -/
theorem report_placeholder_columns_null_witness :
    convertedBaseRow.additional_intensities = Cell.null ∧
    convertedBaseRow.predicted_rt = Cell.null ∧
    convertedBaseRow.gg_accessions = Cell.null ∧
    convertedBaseRow.gg_names = Cell.null ∧
    convertedBaseRow.rt_start = Cell.null ∧
    convertedBaseRow.rt_stop = Cell.null ∧
    convertedBaseRow.ion_mobility = Cell.null ∧
    convertedBaseRow.start_ion_mobility = Cell.null ∧
    convertedBaseRow.stop_ion_mobility = Cell.null :=
  report_placeholder_columns_null mapNone qvalueMap0 pepDict0 modsFn0 accFn0
    parse0 [[featureRowBase]] [convertedBaseRow] (by decide) convertedBaseRow
    (by decide)

/-! ### Partition slicing model (Feature.slice, feature.py lines 116-127)

For the partitioning claims a batch is modelled row-wise, a row being an
association list from column names to nullable string values, together
with the frame-level column list read by df.columns.  A Python caller
can pass a non-list partitions argument, which the code detects with
isinstance; this dynamically typed argument is modelled by a dedicated
sum type. -/

abbrev SliceRow := List (String × Option String)

structure RFrame where
  cols : List String
  rows : List SliceRow
deriving DecidableEq, Repr

inductive PartitionsArg where
  | ofList (l : List String) : PartitionsArg
  | notAList (rep : String) : PartitionsArg
deriving DecidableEq, Repr

/-- Grouping key of one row for the given partition columns: present only
when every partition column is present in the row and non-null, exactly
the rows pandas groupby keeps under its default dropna=True. -/
def rowKeyOf (parts : List String) (r : SliceRow) : Option (List String) :=
  match parts with
  | [] => some []
  | c :: cs =>
    match (r.lookup c).join, rowKeyOf cs r with
    | some v, some k => some (v :: k)
    | _, _ => none

/-- Position-tagged rows of a frame (pandas rows keep their original
index inside each group). -/
def enumFromIdx {α : Type} (n : Nat) : List α → List (Nat × α)
  | [] => []
  | a :: l => (n, a) :: enumFromIdx (n + 1) l

/-- Embedding of the validation performed at the top of Feature.slice
(feature.py lines 118-125): a non-list argument, an empty list, and a
column absent from df.columns each raise with the shown message. -/
def sliceValidationError (cols : List String) :
    PartitionsArg → Option String
  | PartitionsArg.notAList rep => some (rep ++ " is not a list")
  | PartitionsArg.ofList parts =>
    if parts.isEmpty then some "[] is empty"
    else
      match parts.find? (fun c => ¬ cols.contains c) with
      | some c => some (c ++ " does not exist")
      | none => none

/-- Embedding of the df.groupby(partitions) iteration of Feature.slice
(feature.py lines 126-127): one group per distinct non-null key tuple,
each group holding the index-tagged rows with that key.  pandas sorts the
group keys; the key order is irrelevant to the claims, so groups are
listed in first-occurrence order. -/
def sliceGroups (df : RFrame) (parts : List String) :
    List (List String × List (Nat × SliceRow)) :=
  (((enumFromIdx 0 df.rows).filterMap (fun ir => rowKeyOf parts ir.2)).dedup).map
    (fun k => (k, (enumFromIdx 0 df.rows).filter
      (fun ir => rowKeyOf parts ir.2 == some k)))

/-- Embedding of Feature.slice: validate, then yield the groups. -/
def slice (df : RFrame) (p : PartitionsArg) :
    Except String (List (List String × List (Nat × SliceRow))) :=
  match sliceValidationError df.cols p with
  | some e => Except.error e
  | none =>
    match p with
    | PartitionsArg.ofList parts => Except.ok (sliceGroups df parts)
    | PartitionsArg.notAList rep => Except.error (rep ++ " is not a list")

/-- Counterexample input for claim C3: a frame with one partition column
and a second row whose partition value is null. -/
def dfNullRow : RFrame :=
  ⟨["reference_file_name"],
   [[("reference_file_name", some "fileA")], [("reference_file_name", none)]]⟩

/-- Counterexample to claim C3 as stated: with the valid non-empty
partition list [reference_file_name], all of whose columns exist in the
batch, the union of the yielded groups misses the row whose partition
value is null (pandas groupby drops null keys), so the union of groups
does not equal the set of rows of the batch. -/
theorem slice_union_misses_null_rows_counterexample :
    slice dfNullRow (PartitionsArg.ofList ["reference_file_name"]) =
      Except.ok
        [(["fileA"], [(0, [("reference_file_name", some "fileA")])])] ∧
    dfNullRow.rows.length = 2 ∧
    (∀ g ∈ [(["fileA"], [(0, [("reference_file_name", some "fileA")])])],
      ((1 : Nat), [("reference_file_name", (none : Option String))]) ∉ g.2) := by
  refine ⟨rfl, by decide, by decide⟩

/-- Claim C3, amended.  For every batch and partition list accepted by
the validation of slice, the yielded groups partition exactly the rows
all of whose partition-column values are present and non-null: every
group member is a row of the batch carrying that group's key, every such
row lands in the group of its key, no row lies in two distinct groups,
and a row with a null partition value lies in no group (pandas groupby
drops null keys under its default dropna=True). -/
theorem slice_groups_partition (df : RFrame) (parts : List String)
    (gs : List (List String × List (Nat × SliceRow)))
    (h : slice df (PartitionsArg.ofList parts) = Except.ok gs) :
    (∀ kg ∈ gs, ∀ ir ∈ kg.2,
      ir ∈ enumFromIdx 0 df.rows ∧ rowKeyOf parts ir.2 = some kg.1) ∧
    (∀ ir ∈ enumFromIdx 0 df.rows, ∀ k, rowKeyOf parts ir.2 = some k →
      ∃ g, (k, g) ∈ gs ∧ ir ∈ g) ∧
    (∀ k₁ g₁ k₂ g₂ ir, (k₁, g₁) ∈ gs → (k₂, g₂) ∈ gs →
      ir ∈ g₁ → ir ∈ g₂ → k₁ = k₂ ∧ g₁ = g₂) ∧
    (∀ ir ∈ enumFromIdx 0 df.rows, rowKeyOf parts ir.2 = none →
      ∀ kg ∈ gs, ir ∉ kg.2) := by
  have hgs : gs = sliceGroups df parts := by
    unfold slice at h
    cases hv : sliceValidationError df.cols (PartitionsArg.ofList parts) with
    | some e =>
      rw [hv] at h
      simp at h
    | none =>
      rw [hv] at h
      cases h
      rfl
  subst hgs
  refine ⟨?_, ?_, ?_, ?_⟩
  · intro kg hkg ir hir
    rw [sliceGroups, List.mem_map] at hkg
    obtain ⟨k, hk, hkgeq⟩ := hkg
    cases hkgeq
    rw [List.mem_filter] at hir
    refine ⟨hir.1, ?_⟩
    simpa using hir.2
  · intro ir hir k hkey
    have hk : k ∈ ((enumFromIdx 0 df.rows).filterMap
        (fun ir => rowKeyOf parts ir.2)).dedup := by
      rw [List.mem_dedup, List.mem_filterMap]
      exact ⟨ir, hir, hkey⟩
    refine ⟨(enumFromIdx 0 df.rows).filter
        (fun x => rowKeyOf parts x.2 == some k), ?_, ?_⟩
    · rw [sliceGroups, List.mem_map]
      exact ⟨k, hk, rfl⟩
    · rw [List.mem_filter]
      exact ⟨hir, by simpa using hkey⟩
  · intro k₁ g₁ k₂ g₂ ir h₁ h₂ hir₁ hir₂
    rw [sliceGroups, List.mem_map] at h₁ h₂
    obtain ⟨a, ha, heq₁⟩ := h₁
    obtain ⟨b, hb, heq₂⟩ := h₂
    injection heq₁ with ha1 ha2
    injection heq₂ with hb1 hb2
    subst ha1
    subst ha2
    subst hb1
    subst hb2
    have e₁ := (List.mem_filter.mp hir₁).2
    have e₂ := (List.mem_filter.mp hir₂).2
    simp only [beq_iff_eq] at e₁ e₂
    have hab := Option.some.inj (e₁.symm.trans e₂)
    subst hab
    exact ⟨rfl, rfl⟩
  · intro ir hir hnone kg hkg hmem
    rw [sliceGroups, List.mem_map] at hkg
    obtain ⟨k, hk, hkgeq⟩ := hkg
    cases hkgeq
    rw [List.mem_filter] at hmem
    have hs : rowKeyOf parts ir.2 = some k := by simpa using hmem.2
    rw [hnone] at hs
    cases hs

/-- Witness for the amended claim C3 at a concrete input. -/
theorem slice_groups_partition_witness :
    ∃ g, (["fileA"], g) ∈
        [(["fileA"], [((0 : Nat), [("reference_file_name", some "fileA")])])] ∧
      ((0 : Nat), [("reference_file_name", some "fileA")]) ∈ g :=
  (slice_groups_partition dfNullRow ["reference_file_name"]
      [(["fileA"], [(0, [("reference_file_name", some "fileA")])])] rfl).2.1
    (0, [("reference_file_name", some "fileA")]) (by decide) ["fileA"] (by decide)

/-! ### Claim C5: timing of the partition-argument validation

Feature.generate_slice_feature (feature.py lines 129-142) iterates over
generate_feature_report and only then calls slice per yielded batch, so
the validation inside slice runs after PSM extraction (line 107, the
first statement executed by the report generator) and after the first
quantification batch has been generated, merged, annotated and coerced
(lines 108-114).  The trace model records these events in execution
order; the error slot carries the first raised message. -/

inductive PEv where
  | psmExtract : PEv
  | mergeBatch (i : Nat) : PEv
  | yieldSlice (i : Nat) (key : List String) : PEv
deriving DecidableEq, Repr

/-- Loop body of generate_slice_feature over the enumerated report
batches: each batch is generated and merged (one mergeBatch event), then
sliced; a slice error aborts the iteration, otherwise each group is
yielded. -/
def genSliceTraceAux (p : PartitionsArg) :
    List (Nat × RFrame) → List PEv × Option String
  | [] => ([], none)
  | (i, df) :: rest =>
    match slice df p with
    | Except.error e => ([PEv.mergeBatch i], some e)
    | Except.ok gs =>
      let t := genSliceTraceAux p rest
      (PEv.mergeBatch i :: (gs.map (fun g => PEv.yieldSlice i g.1) ++ t.1), t.2)

/-- Trace of generate_slice_feature: extract_psm_msg runs first (line 107
of feature.py, reached on the first pull of the generator), then the
per-batch loop. -/
def genSliceTrace (p : PartitionsArg) (batches : List RFrame) :
    List PEv × Option String :=
  let t := genSliceTraceAux p (enumFromIdx 0 batches)
  (PEv.psmExtract :: t.1, t.2)

/-- Counterexample to claim C5 as stated: with a partition list naming an
absent column and one quantification batch, the pipeline raises the
validation error only after PSM extraction and after the first batch has
been generated and merged — both events precede the error in the trace,
where the claim requires the failure to come first. -/
theorem slice_validation_after_first_batch_counterexample :
    genSliceTrace (PartitionsArg.ofList ["missing_col"]) [dfNullRow] =
      ([PEv.psmExtract, PEv.mergeBatch 0], some "missing_col does not exist") ∧
    PEv.psmExtract ∈ (genSliceTrace (PartitionsArg.ofList ["missing_col"])
        [dfNullRow]).1 ∧
    PEv.mergeBatch 0 ∈ (genSliceTrace (PartitionsArg.ofList ["missing_col"])
        [dfNullRow]).1 := by
  refine ⟨rfl, by decide, by decide⟩

/-- Claim C5, amended.  A partition argument that is not a list, is
empty, or names a column absent from the batch schema makes
generate_slice_feature raise the descriptive slice error when the first
generated batch is partitioned: the error is raised (never silently
skipping the bad partition column) and nothing is sliced and no later
batch is processed, but it fires only after PSM extraction and after the
first quantification batch has been generated and merged. -/
theorem slice_validation_error_on_first_batch (p : PartitionsArg)
    (df : RFrame) (rest : List RFrame) (e : String)
    (h : slice df p = Except.error e) :
    genSliceTrace p (df :: rest) =
      ([PEv.psmExtract, PEv.mergeBatch 0], some e) := by
  rw [genSliceTrace]
  have henum : enumFromIdx 0 (df :: rest) = (0, df) :: enumFromIdx 1 rest := rfl
  rw [henum, genSliceTraceAux, h]

/-- Witness for the amended claim C5 at a concrete input (empty partition
list). -/
theorem slice_validation_error_on_first_batch_witness :
    genSliceTrace (PartitionsArg.ofList []) [dfNullRow] =
      ([PEv.psmExtract, PEv.mergeBatch 0], some "[] is empty") :=
  slice_validation_error_on_first_batch (PartitionsArg.ofList []) dfNullRow []
    "[] is empty" rfl

/-! ### Claim C4: resource release on abort

Python generator semantics for Feature.transform_msstats_in (feature.py
lines 54-62): the destroy_duckdb_database call sits after the yield loop
with no try/finally, so it executes only when the consumer drains the
generator to completion; when the consumer aborts with an error after
receiving some batch, the generator is left suspended at that yield and
the code after the loop never runs.  Likewise write_features_to_file
(lines 191-242) calls close_file on its writer table only as the last
statement after the loop, so an upstream failure skips it.  The trace
model below records the externally visible resource actions of one run;
the consumer behaviour is an abort position (none = runs to completion,
some j = aborts with an error after the j-th yielded item).  The
duckdb-backed batch generation and the close_file helper themselves live
outside this repository slice; only the control flow of feature.py is
modelled. -/

inductive RAct where
  | yieldBatch (i : Nat) : RAct
  | destroyDb : RAct
  | openSink (k : String) : RAct
  | writeSink (k : String) : RAct
  | closeSink (k : String) : RAct
deriving DecidableEq, Repr

/-- Resource actions of transform_msstats_in over n generated batches. -/
def transformMsstatsEvents (n : Nat) (abortAfter : Option Nat) : List RAct :=
  match abortAfter with
  | none => (List.range n).map RAct.yieldBatch ++ [RAct.destroyDb]
  | some j => ((List.range n).take (j + 1)).map RAct.yieldBatch

/-- Sink actions of the partitioned write loop (feature.py lines
216-234): a sink opens the first time its partition key is seen and is
written on every occurrence. -/
def writeLoop : List String → List String → List RAct
  | _, [] => []
  | seen, k :: rest =>
    (if k ∈ seen then [RAct.writeSink k]
     else [RAct.openSink k, RAct.writeSink k]) ++ writeLoop (k :: seen) rest

/-- Resource actions of write_features_to_file over the stream of
partition keys of the yielded slices: close_file runs once per open sink,
only after the loop finishes normally (feature.py line 241). -/
def writeFeaturesEvents (keys : List String) (abortAfter : Option Nat) :
    List RAct :=
  match abortAfter with
  | none => writeLoop [] keys ++ keys.dedup.map RAct.closeSink
  | some j => writeLoop [] (keys.take (j + 1))

/-- Claim C4 is violated by the code (evaluation at the failing input):
when the consumer aborts after the first of two batches, the ephemeral
duckdb database is never destroyed, and when the partitioned write loop
aborts after the first slice, the sink it opened is never closed —
whereas both teardowns do happen exactly once on the normal path. -/
theorem resources_not_released_on_abort :
    RAct.destroyDb ∉ transformMsstatsEvents 2 (some 0) ∧
    RAct.destroyDb ∈ transformMsstatsEvents 2 none ∧
    RAct.openSink "fileA" ∈ writeFeaturesEvents ["fileA", "fileB"] (some 0) ∧
    (writeFeaturesEvents ["fileA", "fileB"] (some 0)).count
        (RAct.closeSink "fileA") = 0 ∧
    (writeFeaturesEvents ["fileA", "fileB"] none).count
        (RAct.closeSink "fileA") = 1 ∧
    (writeFeaturesEvents ["fileA", "fileB"] none).count
        (RAct.closeSink "fileB") = 1 := by
  decide

/-! ### Claim C10: column-presence behaviour of convert_to_parquet_format

The column-sensitive view of Feature.convert_to_parquet_format models a
batch as an association list of named columns, mirroring the guards of
feature.py lines 282-331: the four float columns, precursor_charge and
is_decoy are coerced only when present, rt is created as a null column
when absent, while unique, scan and scan_reference_file_name are indexed
unconditionally and raise a KeyError when missing. -/

abbrev PFrame := List (String × List Cell)

def getColumn (df : PFrame) (c : String) : Option (List Cell) :=
  (df.find? (fun p => p.1 == c)).map (fun p => p.2)

def setColumn (df : PFrame) (c : String) (col : List Cell) : PFrame :=
  if (df.find? (fun p => p.1 == c)).isSome then
    df.map (fun p => if p.1 == c then (c, col) else p)
  else df ++ [(c, col)]

def floatColumns : List String :=
  ["pg_global_qvalue", "calculated_mz", "observed_mz",
   "posterior_error_probability"]

/-- Guarded float coercion (feature.py lines 304-306). -/
def coerceColumnIfPresent (parse : String → Option ℚ) (df : PFrame)
    (c : String) : PFrame :=
  match getColumn df c with
  | none => df
  | some col => setColumn df c (col.map (toNumericCell parse))

def castInt32Column : List Cell → Except String (List Cell)
  | [] => Except.ok []
  | c :: cs =>
    match astypeInt32 c, castInt32Column cs with
    | Except.ok v, Except.ok vs => Except.ok (v :: vs)
    | Except.error e, _ => Except.error e
    | _, Except.error e => Except.error e

/-- Guarded integer coercion (feature.py lines 312-321). -/
def coerceIntIfPresent (parse : String → Option ℚ) (df : PFrame)
    (c : String) : Except String PFrame :=
  match getColumn df c with
  | none => Except.ok df
  | some col =>
    match castInt32Column (col.map (toNumericCell parse)) with
    | Except.error e => Except.error e
    | Except.ok col2 => Except.ok (setColumn df c col2)

/-- Unconditional astype(str) of a column (feature.py lines 324-325):
raises a KeyError when the column is absent. -/
def strMandatoryColumn (df : PFrame) (c : String) : Except String PFrame :=
  match getColumn df c with
  | none => Except.error ("KeyError: " ++ c)
  | some col => Except.ok (setColumn df c (col.map (fun v => Cell.str (pyStr v))))

/-- Embedding of Feature.convert_to_parquet_format at column level, in
statement order: guarded float coercions, the unconditional unique
lookup and Int32 cast, guarded precursor_charge and is_decoy casts, the
two unconditional scan string renderings, and the guarded rt coercion
with null-column creation when rt is absent. -/
def convertPF (parse : String → Option ℚ) (df0 : PFrame) :
    Except String PFrame :=
  let df1 := floatColumns.foldl (coerceColumnIfPresent parse) df0
  match getColumn df1 "unique" with
  | none => Except.error "KeyError: unique"
  | some ucol =>
    match castInt32Column (ucol.map (toNumericCell parse)) with
    | Except.error e => Except.error e
    | Except.ok ucol2 =>
      match coerceIntIfPresent parse (setColumn df1 "unique" ucol2)
          "precursor_charge" with
      | Except.error e => Except.error e
      | Except.ok df3 =>
        match coerceIntIfPresent parse df3 "is_decoy" with
        | Except.error e => Except.error e
        | Except.ok df4 =>
          match strMandatoryColumn df4 "scan" with
          | Except.error e => Except.error e
          | Except.ok df5 =>
            match strMandatoryColumn df5 "scan_reference_file_name" with
            | Except.error e => Except.error e
            | Except.ok df6 =>
              match getColumn df6 "rt" with
              | some rcol =>
                Except.ok (setColumn df6 "rt" (rcol.map (toNumericCell parse)))
              | none =>
                Except.ok (df6 ++
                  [("rt", List.replicate
                      ((getColumn df6 "scan").getD []).length Cell.null)])

/-- Batches exercising the presence guards of
convert_to_parquet_format. -/
def pfOnlyMandatory : PFrame :=
  [("unique", [Cell.num 1]), ("scan", [Cell.null]),
   ("scan_reference_file_name", [Cell.str "fileA"])]

def pfNoUnique : PFrame :=
  [("scan", [Cell.null]), ("scan_reference_file_name", [Cell.null])]

def pfNoScan : PFrame :=
  [("unique", [Cell.num 1]), ("scan_reference_file_name", [Cell.null])]

def pfNoScanRef : PFrame :=
  [("unique", [Cell.num 1]), ("scan", [Cell.null])]

/-- Claim C10.  convert_to_parquet_format skips the guarded coercions of
a batch missing every guarded column (pg_global_qvalue, calculated_mz,
observed_mz, posterior_error_probability, precursor_charge, is_decoy)
and creates rt as a null column, yet raises a key-lookup error — instead
of recovering with null — on a batch missing any one of the three
unconditionally indexed columns unique, scan and
scan_reference_file_name. -/
theorem convert_unconditional_column_lookup :
    convertPF parse0 pfOnlyMandatory =
      Except.ok
        [("unique", [Cell.num 1]), ("scan", [Cell.str "None"]),
         ("scan_reference_file_name", [Cell.str "fileA"]),
         ("rt", [Cell.null])] ∧
    convertPF parse0 pfNoUnique = Except.error "KeyError: unique" ∧
    convertPF parse0 pfNoScan = Except.error "KeyError: scan" ∧
    convertPF parse0 pfNoScanRef =
      Except.error "KeyError: scan_reference_file_name" :=
  ⟨rfl, rfl, rfl, rfl⟩

end QuantmsIO
